import Mathlib

/-!
Verification of the legal-document analysis pipeline of `src/app.py`
(Infosys-Legaldocs-Summarizer).

The Python source is shallowly embedded: the sentence segmenter and
tokenizer (spaCy) are external collaborators, so a document is embedded as
the ordered list of sentences the segmenter produced, each sentence
carrying its text and its tokens with the attributes the code reads
(`text`, `is_alpha`, `is_stop`, `like_num`).  Regular-expression
substitutions in `clean_text` are embedded as executable character-list
functions with the same matching semantics on ASCII text (the claims are
about ASCII digits, letters, punctuation and whitespace).  Network calls
are embedded as explicit outcome values.
-/

namespace LegalDocs

/-- The whitespace characters of the regex class backslash-s and of the
Python `str.strip` default, restricted to ASCII. -/
def pyIsSpace (c : Char) : Bool :=
  c == ' ' || c == '\t' || c == '\n' || c == '\r' ||
    c == Char.ofNat 11 || c == Char.ofNat 12

/-- Python `str.strip()` on a character list: drop whitespace from both
ends. -/
def pyStripL (l : List Char) : List Char :=
  ((l.dropWhile pyIsSpace).reverse.dropWhile pyIsSpace).reverse

/-- Python `str.strip()`. -/
def pyStrip (s : String) : String :=
  String.mk (pyStripL s.data)

/-- Python `str.lower()`: the per-character lowering map (the same
character map as `String.toLower`, respelled over the character list so
that it evaluates by kernel reduction). -/
def strLower (s : String) : String :=
  String.mk (s.data.map Char.toLower)

/-- Does `hay` start with `needle`? (helper for the substring test). -/
def subAt : List Char → List Char → Bool
  | [], _ => true
  | _ :: _, [] => false
  | n :: ns, h :: hs => n == h && subAt ns hs

/-- Does the haystack contain `needle` at some position? -/
def containsAux (needle : List Char) : List Char → Bool
  | [] => subAt needle []
  | c :: cs => subAt needle (c :: cs) || containsAux needle cs

/-- Python `needle in hay` on strings: substring containment. -/
def strContains (hay needle : String) : Bool :=
  containsAux needle.data hay.data

/-- Greedy match of one or more groups of a dot followed by digits, the
`(\.\d+)+` part of the dotted-number regex in `clean_text`.  Returns the
rest of the input after the match.  `fuel` bounds the recursion and is
always called with at least the length of the list, which the per-group
consumption (at least two characters) never exhausts. -/
def groupsFrom : Nat → List Char → Option (List Char)
  | _, [] => none
  | 0, _ => none
  | fuel + 1, c :: rest =>
    if c == '.' then
      if (rest.takeWhile Char.isDigit).isEmpty then none
      else
        let rest2 := rest.dropWhile Char.isDigit
        match groupsFrom fuel rest2 with
        | some r => some r
        | none => some rest2
    else none

/-- Match of the regex `\d+(\.\d+)+` at the head of the list (digits, then
one or more dot-digits groups, all greedy).  Returns the rest after the
match when one exists. -/
def matchDotted (l : List Char) : Option (List Char) :=
  if (l.takeWhile Char.isDigit).isEmpty then none
  else groupsFrom l.length (l.dropWhile Char.isDigit)

/-- Leftmost non-overlapping removal of every `\d+(\.\d+)+` match, the
first substitution in `clean_text`.  A successful match consumes at least
three characters and a failure consumes one, so fuel equal to the length
of the list is exact. -/
def removeDottedAux : Nat → List Char → List Char
  | 0, l => l
  | _ + 1, [] => []
  | fuel + 1, c :: cs =>
    match matchDotted (c :: cs) with
    | some rest => removeDottedAux fuel rest
    | none => c :: removeDottedAux fuel cs

/-- `re.sub` of the dotted-number pattern by the empty string. -/
def removeDotted (l : List Char) : List Char :=
  removeDottedAux l.length l

/-- Replace every maximal whitespace run by one space, the second
substitution in `clean_text` (`prevSp` records whether the previous kept
character closed a whitespace run). -/
def collapseWsAux : Bool → List Char → List Char
  | _, [] => []
  | prevSp, c :: cs =>
    if pyIsSpace c then
      if prevSp then collapseWsAux true cs
      else ' ' :: collapseWsAux true cs
    else c :: collapseWsAux false cs

/-- `re.sub` of one-or-more whitespace by a single space. -/
def collapseWs (l : List Char) : List Char :=
  collapseWsAux false l

/-- A character survives the third substitution of `clean_text` (removal
of everything that is neither an ASCII letter nor whitespace). -/
def keepChar (c : Char) : Bool :=
  c.isAlpha || pyIsSpace c

/-- `clean_text` of `src/app.py` lines 40-51: remove dotted numeric
references, collapse whitespace runs to single spaces, delete every
character that is not an ASCII letter or whitespace, and strip the
ends. -/
def clean_text (s : String) : String :=
  String.mk (pyStripL ((collapseWs (removeDotted s.data)).filter keepChar))

/-- The first character of the list, when there is one, is not
whitespace. -/
def headNotSpace (l : List Char) : Bool :=
  match l.head? with
  | some c => !(pyIsSpace c)
  | none => true

/-- A spaCy token, carrying exactly the attributes the code reads. -/
structure Token where
  text : String
  is_alpha : Bool
  is_stop : Bool
  like_num : Bool
deriving DecidableEq, Repr

/-- A spaCy sentence span: its text and its tokens in order. -/
structure Sentence where
  text : String
  tokens : List Token
deriving DecidableEq, Repr

/-- The term-frequency `Counter` of `summarize_text` (lines 58-62): the
number of alphabetic, non-stopword, non-numeric tokens of the document
whose lowercased text is `w`. -/
def word_freq (doc : List Sentence) (w : String) : Nat :=
  ((((doc.map Sentence.tokens).flatten.filter
      (fun t => t.is_alpha && !t.is_stop && !t.like_num)).map
      (fun t => strLower t.text)).count w)

/-- The sentence score of `summarize_text` (lines 63-66): the sum of
the document frequencies of the sentence's non-numeric tokens. -/
def sent_score (doc : List Sentence) (s : Sentence) : Nat :=
  (((s.tokens.filter (fun t => !t.like_num)).map
      (fun t => word_freq doc (strLower t.text))).sum)

/-- `heapq.nlargest(k, sent_scores, key=sent_scores.get)` (line 67): the
`k` highest-scoring sentences.  `heapq.nlargest` is documented as
equivalent to `sorted(iterable, key=key, reverse=True)[:k]`, the stable
descending sort truncated to `k`; dict iteration yields the sentences in
insertion order, which is document order. -/
def selectedSents (doc : List Sentence) (k : Nat) : List Sentence :=
  (List.insertionSort (fun a b => sent_score doc b ≤ sent_score doc a) doc).take k

/-- `". ".join(parts) + "."` (line 70). -/
def joinSummary (parts : List String) : String :=
  String.intercalate ". " parts ++ "."

/-- `summarize_text` (lines 54-70) applied to the segmented document: the
selected sentences, stripped, joined with a period separator and a final
period. -/
def summarize_text (doc : List Sentence) (k : Nat) : String :=
  joinSummary ((selectedSents doc k).map (fun s => pyStrip s.text))

/-- The whole summarization pipeline: `nlp(clean_text(text))` segments
the cleaned text with the external segmenter, then the sentences are
scored and joined.  `segment` stands for the external spaCy model. -/
def summarize_pipeline (segment : String → List Sentence) (text : String) (k : Nat) : String :=
  summarize_text (segment (clean_text text)) k

/-- The document with every numeric (`like_num`) token deleted. -/
def stripNumTokens (doc : List Sentence) : List Sentence :=
  doc.map (fun s => ⟨s.text, s.tokens.filter (fun t => !t.like_num)⟩)

/-- The clause-indicator lexicon of `extract_key_clauses` (line 76). -/
def kcIndicators : List String :=
  ["shall", "must", "obliged to", "required to", "responsible for",
   "liable for", "warrant", "guarantee"]

/-- The risk-indicator lexicon of `detect_hidden_risks` (lines 86-94). -/
def riskIndicators : List String :=
  ["dependency", "contingency", "subject to", "provided that", "unless",
   "in the event of", "without prejudice", "under no circumstances",
   "notwithstanding", "in the case of", "except as otherwise",
   "limited to", "may be", "shall not", "in accordance with",
   "at the discretion of", "conditional upon", "exclusive of",
   "without limitation", "subject to change", "binding upon",
   "liable for", "force majeure", "to the extent permitted by law"]

/-- The stripped texts of the sentences whose lowercased text contains
some lexicon phrase as a substring, in document order (the loop bodies of
lines 78-80 and 96-98). -/
def matchedSents (lex : List String) (doc : List Sentence) : List String :=
  (doc.filter (fun s => lex.any (fun p => strContains (strLower s.text) p))).map
    (fun s => pyStrip s.text)

/-- First-occurrence deduplication with an accumulator of already-seen
texts. -/
def dedupFirstAux (seen : List String) : List String → List String
  | [] => []
  | x :: xs =>
    if x ∈ seen then dedupFirstAux seen xs
    else x :: dedupFirstAux (x :: seen) xs

/-- `sorted(set(l), key=l.index)` (lines 81 and 99): the distinct
elements of `l` ordered by the index of their first occurrence, which is
exactly first-occurrence deduplication (the sort key `l.index` is total
and injective on the distinct elements, so the unspecified iteration
order of the Python set does not affect the result). -/
def dedupFirst (l : List String) : List String :=
  dedupFirstAux [] l

/-- `extract_key_clauses` (lines 74-81). -/
def extract_key_clauses (doc : List Sentence) : List String :=
  dedupFirst (matchedSents kcIndicators doc)

/-- `detect_hidden_risks` (lines 84-99). -/
def detect_hidden_risks (doc : List Sentence) : List String :=
  dedupFirst (matchedSents riskIndicators doc)

/-- One entry of the `regulatory_updates` array.  The fields are
optional: `update.get` defaults a missing field to the empty string
(`section` is a Lean keyword, so the field is named `sectionLabel`). -/
structure RegUpdate where
  sectionLabel : Option String
  sub_section : Option String
  update : Option String
deriving DecidableEq, Repr

/-- The f-string of line 126. -/
def formatU (sectionLabel sub upd : String) : String :=
  "Section: " ++ sectionLabel ++ " Sub-Section: " ++ sub ++ " Update: " ++ upd

/-- The qualification test of line 125: both labels, lowercased, occur as
substrings of the lowercased document text. -/
def qualifiesU (text : String) (u : RegUpdate) : Bool :=
  strContains (strLower text) (strLower (u.sectionLabel.getD "")) &&
    strContains (strLower text) (strLower (u.sub_section.getD ""))

/-- `track_regulatory_updates` (lines 117-127): scan the feed in order,
appending the formatted entry of every qualifying record. -/
def track_regulatory_updates : String → List RegUpdate → List String
  | _, [] => []
  | text, u :: rest =>
    if qualifiesU text u then
      formatU (u.sectionLabel.getD "") (u.sub_section.getD "")
          (strLower (u.update.getD ""))
        :: track_regulatory_updates text rest
    else track_regulatory_updates text rest

/-- The observable outcome of the `requests.post` call of
`get_answer_from_groq_api`: either a response with a status code and the
(optionally present) `choices[0].message.content` string of its JSON
body, or a raised transport exception. -/
inductive GroqOutcome where
  | ok (status : Nat) (content : Option String)
  | exn
deriving DecidableEq, Repr

/-- `get_answer_from_groq_api` (lines 130-152) as a function of the call
outcome: the whole call is wrapped in try-except, a raised exception or a
non-200 status yields the empty string (after an `st.error` diagnostic),
and a 200 response yields the stripped content; a 200 response whose body
lacks the content key raises inside the try block and is caught, also
yielding the empty string. -/
def get_answer_from_groq_api : GroqOutcome → String
  | .exn => ""
  | .ok status content =>
    if status = 200 then
      match content with
      | some c => pyStrip c
      | none => ""
    else ""

/-- One chat message of the request body (line 138). -/
structure GroqMessage where
  role : String
  content : String
deriving DecidableEq, Repr

/-- The `data` dictionary of the request (lines 136-139). -/
structure GroqRequest where
  model : String
  messages : List GroqMessage
deriving DecidableEq, Repr

/-- The request body `get_answer_from_groq_api` builds for a question
(lines 136-139): a fixed model identifier and a single user message whose
content is the question string itself. -/
def groqRequest (question : String) : GroqRequest :=
  ⟨"llama-3.3-70b-versatile", [⟨"user", question⟩]⟩

/-- Modelled from the spec: an `EmbeddingRecord` of the Embedding Store
(spec section 4.3).  The store itself is absent from `src/app.py`; only
the embedding model is loaded (line 26). -/
structure EmbeddingRecord where
  document_id : String
  vector : List Int
  source_text : String
deriving DecidableEq, Repr

/-- Modelled from the spec: `upsert(document_id, text)` of the Embedding
Store (spec section 4.3) — encode the text and store the record, unless a
record for the identifier already exists, in which case the call is a
no-op.  `encode` stands for the external embedding model. -/
def upsert (encode : String → List Int) (store : List EmbeddingRecord)
    (document_id text : String) : List EmbeddingRecord :=
  if store.any (fun r => r.document_id == document_id) then store
  else store ++ [⟨document_id, encode text, text⟩]

/-- Modelled from the spec: `retrieve(query, k)` of the Embedding Store
(spec section 4.3) — the `k` stored records of highest similarity to the
encoded query.  `sim` stands for the similarity of the embedding model. -/
def retrieve (encode : String → List Int) (sim : List Int → List Int → Int)
    (store : List EmbeddingRecord) (q : String) (k : Nat) : List EmbeddingRecord :=
  (List.insertionSort (fun a b => sim (encode q) b.vector ≤ sim (encode q) a.vector)
    store).take k

/-- A one-token sentence reading "b" (concrete test data). -/
def sentB : Sentence := ⟨"b", [⟨"b", true, false, false⟩]⟩

/-- A two-token sentence reading "a a" (concrete test data). -/
def sentAA : Sentence := ⟨"a a", [⟨"a", true, false, false⟩, ⟨"a", true, false, false⟩]⟩

/-- A two-sentence document whose second sentence outscores its first
(concrete test data). -/
def exDoc : List Sentence := [sentB, sentAA]

/-- A sentence consisting solely of the numeric token "1200" (concrete
test data). -/
def sentNum : Sentence := ⟨"1200", [⟨"1200", false, false, true⟩]⟩

/-- A one-token non-numeric sentence reading "a" (concrete test data). -/
def sentA : Sentence := ⟨"a", [⟨"a", true, false, false⟩]⟩

/-- A document holding a numeric-only sentence and a non-numeric
alternative (concrete test data). -/
def exDocNum : List Sentence := [sentNum, sentA]

/-! ## Helper lemmas -/

theorem containsAux_nil (l : List Char) : containsAux [] l = true := by
  cases l <;> simp [containsAux, subAt]

theorem strContains_empty_needle (t : String) : strContains t "" = true :=
  containsAux_nil t.data

theorem dedupFirstAux_mem : ∀ (l seen : List String) (x : String),
    x ∈ dedupFirstAux seen l ↔ (x ∈ l ∧ x ∉ seen)
  | [], seen, x => by simp [dedupFirstAux]
  | y :: ys, seen, x => by
    by_cases hy : y ∈ seen
    · rw [dedupFirstAux, if_pos hy, dedupFirstAux_mem ys seen x]
      constructor
      · rintro ⟨h1, h2⟩
        exact ⟨List.mem_cons_of_mem _ h1, h2⟩
      · rintro ⟨h1, h2⟩
        rcases List.mem_cons.1 h1 with h | h
        · exact absurd (h ▸ hy) h2
        · exact ⟨h, h2⟩
    · rw [dedupFirstAux, if_neg hy]
      constructor
      · intro hmem
        rcases List.mem_cons.1 hmem with h | h
        · exact ⟨h ▸ List.mem_cons_self _ _, h ▸ hy⟩
        · have h2 := (dedupFirstAux_mem ys (y :: seen) x).1 h
          exact ⟨List.mem_cons_of_mem _ h2.1,
            fun hs => h2.2 (List.mem_cons_of_mem _ hs)⟩
      · rintro ⟨h1, h2⟩
        by_cases hxy : x = y
        · exact hxy ▸ List.mem_cons_self _ _
        · rcases List.mem_cons.1 h1 with h | h
          · exact absurd h hxy
          · refine List.mem_cons_of_mem _
              ((dedupFirstAux_mem ys (y :: seen) x).2 ⟨h, ?_⟩)
            intro hs
            rcases List.mem_cons.1 hs with h3 | h3
            · exact hxy h3
            · exact h2 h3

theorem dedupFirstAux_nodup : ∀ (l seen : List String), (dedupFirstAux seen l).Nodup
  | [], _ => List.nodup_nil
  | y :: ys, seen => by
    by_cases hy : y ∈ seen
    · rw [dedupFirstAux, if_pos hy]
      exact dedupFirstAux_nodup ys seen
    · rw [dedupFirstAux, if_neg hy]
      refine List.nodup_cons.2 ⟨?_, dedupFirstAux_nodup ys (y :: seen)⟩
      intro hmem
      exact ((dedupFirstAux_mem ys (y :: seen) y).1 hmem).2 (List.mem_cons_self _ _)

theorem dedupFirstAux_pairwise : ∀ (l seen : List String),
    (dedupFirstAux seen l).Pairwise (fun a b => l.indexOf a < l.indexOf b)
  | [], _ => List.Pairwise.nil
  | y :: ys, seen => by
    have lift : ∀ out : List String,
        out.Pairwise (fun a b => ys.indexOf a < ys.indexOf b) →
        (∀ x ∈ out, x ≠ y) →
        out.Pairwise (fun a b => (y :: ys).indexOf a < (y :: ys).indexOf b) := by
      intro out hp hne
      refine List.Pairwise.imp_of_mem ?_ hp
      intro a b ha hb hab
      rw [List.indexOf_cons_ne _ (Ne.symm (hne a ha)),
        List.indexOf_cons_ne _ (Ne.symm (hne b hb))]
      exact Nat.succ_lt_succ hab
    by_cases hy : y ∈ seen
    · rw [dedupFirstAux, if_pos hy]
      refine lift _ (dedupFirstAux_pairwise ys seen) ?_
      intro x hx hxy
      exact ((dedupFirstAux_mem ys seen x).1 hx).2 (hxy ▸ hy)
    · rw [dedupFirstAux, if_neg hy]
      refine List.pairwise_cons.2 ⟨?_, ?_⟩
      · intro b hb
        have hbne : b ≠ y := fun h =>
          ((dedupFirstAux_mem ys (y :: seen) b).1 hb).2 (h ▸ List.mem_cons_self _ _)
        rw [List.indexOf_cons_self, List.indexOf_cons_ne _ (Ne.symm hbne)]
        exact Nat.succ_pos _
      · refine lift _ (dedupFirstAux_pairwise ys (y :: seen)) ?_
        intro x hx hxy
        exact ((dedupFirstAux_mem ys (y :: seen) x).1 hx).2
          (hxy ▸ List.mem_cons_self _ _)

theorem mem_dedupFirst {x : String} {l : List String} :
    x ∈ dedupFirst l ↔ x ∈ l := by
  rw [dedupFirst, dedupFirstAux_mem]
  simp

theorem track_eq_filter_map (text : String) : ∀ updates : List RegUpdate,
    track_regulatory_updates text updates =
      (updates.filter (qualifiesU text)).map
        (fun v => formatU (v.sectionLabel.getD "") (v.sub_section.getD "")
          (strLower (v.update.getD "")))
  | [] => rfl
  | u :: rest => by
    by_cases hq : qualifiesU text u = true
    · simp [track_regulatory_updates, hq, List.filter_cons,
        track_eq_filter_map text rest]
    · simp [track_regulatory_updates, hq, List.filter_cons,
        track_eq_filter_map text rest]

theorem head?_dropWhile_not (p : Char → Bool) : ∀ (l : List Char) (c : Char),
    (l.dropWhile p).head? = some c → p c = false
  | [], c => by simp [List.dropWhile]
  | x :: xs, c => by
    by_cases hx : p x = true
    · rw [List.dropWhile_cons, if_pos hx]
      exact head?_dropWhile_not p xs c
    · rw [List.dropWhile_cons, if_neg hx]
      intro h
      have hxc : x = c := Option.some.inj h
      rw [← hxc]
      exact Bool.eq_false_iff.2 hx

theorem getLast?_dropWhile (p : Char → Bool) : ∀ l : List Char,
    l.dropWhile p ≠ [] → (l.dropWhile p).getLast? = l.getLast?
  | [], h => absurd rfl h
  | x :: xs, h => by
    by_cases hx : p x = true
    · rw [List.dropWhile_cons, if_pos hx] at h ⊢
      rw [getLast?_dropWhile p xs h]
      have hxs : xs ≠ [] := by
        intro he
        rw [he] at h
        exact h rfl
      rcases List.exists_cons_of_ne_nil hxs with ⟨y, ys, hys⟩
      rw [hys]
      exact List.getLast?_cons_cons.symm
    · rw [List.dropWhile_cons, if_neg hx]

theorem collapseWsAux_space_mem : ∀ (l : List Char) (b : Bool) (c : Char),
    c ∈ collapseWsAux b l → pyIsSpace c = true → c = ' '
  | [], _, c => by simp [collapseWsAux]
  | x :: xs, b, c => by
    intro hmem hsp
    by_cases hx : pyIsSpace x = true
    · cases b with
      | true =>
        rw [collapseWsAux, if_pos hx, if_pos rfl] at hmem
        exact collapseWsAux_space_mem xs true c hmem hsp
      | false =>
        rw [collapseWsAux, if_pos hx] at hmem
        simp only [Bool.false_eq_true, if_false] at hmem
        rcases List.mem_cons.1 hmem with h | h
        · exact h
        · exact collapseWsAux_space_mem xs true c h hsp
    · rw [collapseWsAux, if_neg hx] at hmem
      rcases List.mem_cons.1 hmem with h | h
      · exact absurd (h ▸ hsp) hx
      · exact collapseWsAux_space_mem xs false c h hsp

theorem pyIsSpace_not_digit {c : Char} (h : pyIsSpace c = true) :
    c.isDigit = false := by
  simp only [pyIsSpace, Bool.or_eq_true, beq_iff_eq] at h
  rcases h with (((((h | h) | h) | h) | h) | h) <;> rw [h] <;> rfl

theorem removeDottedAux_spaces : ∀ (fuel : Nat) (l : List Char),
    (∀ c ∈ l, pyIsSpace c = true) → removeDottedAux fuel l = l
  | 0, _, _ => rfl
  | _ + 1, [], _ => rfl
  | fuel + 1, c :: cs, h => by
    have hc : Char.isDigit c = false :=
      pyIsSpace_not_digit (h c (List.mem_cons_self _ _))
    have hmatch : matchDotted (c :: cs) = none := by
      simp [matchDotted, List.takeWhile_cons, hc]
    simp only [removeDottedAux, hmatch]
    rw [removeDottedAux_spaces fuel cs (fun d hd => h d (List.mem_cons_of_mem _ hd))]

theorem collapseWsAux_true_spaces : ∀ l : List Char,
    (∀ c ∈ l, pyIsSpace c = true) → collapseWsAux true l = []
  | [], _ => rfl
  | x :: xs, h => by
    have hx := h x (List.mem_cons_self _ _)
    rw [collapseWsAux, if_pos hx, if_pos rfl]
    exact collapseWsAux_true_spaces xs (fun c hc => h c (List.mem_cons_of_mem _ hc))

theorem clean_text_spaces : ∀ s : String,
    (∀ c ∈ s.data, pyIsSpace c = true) → clean_text s = "" := by
  intro s h
  rw [clean_text, removeDotted, removeDottedAux_spaces _ _ h]
  cases hd : s.data with
  | nil => rfl
  | cons x xs =>
    have hx : pyIsSpace x = true := h x (hd ▸ List.mem_cons_self _ _)
    have hxs : ∀ c ∈ xs, pyIsSpace c = true := fun c hc =>
      h c (hd ▸ List.mem_cons_of_mem _ hc)
    rw [collapseWs, collapseWsAux, if_pos hx]
    simp only [Bool.false_eq_true, if_false]
    rw [collapseWsAux_true_spaces xs hxs]
    rfl

theorem selectedSents_pairwise (doc : List Sentence) (k : Nat) :
    (selectedSents doc k).Pairwise
      (fun a b => sent_score doc b ≤ sent_score doc a) := by
  haveI : IsTotal Sentence (fun a b => sent_score doc b ≤ sent_score doc a) :=
    ⟨fun a b => Nat.le_total (sent_score doc b) (sent_score doc a)⟩
  haveI : IsTrans Sentence (fun a b => sent_score doc b ≤ sent_score doc a) :=
    ⟨fun _ _ _ hab hbc => Nat.le_trans hbc hab⟩
  exact List.Pairwise.sublist (List.take_sublist _ _)
    (List.sorted_insertionSort _ doc)

theorem selectedSents_length (doc : List Sentence) (k : Nat) :
    (selectedSents doc k).length = min k doc.length := by
  rw [selectedSents, List.length_take, List.length_insertionSort]

theorem selectedSents_perm {doc : List Sentence} {k : Nat} (h : doc.length ≤ k) :
    (selectedSents doc k).Perm doc := by
  rw [selectedSents, List.take_of_length_le]
  · exact List.perm_insertionSort _ doc
  · rw [List.length_insertionSort]
    exact h

theorem selectedSents_not_mem_le {doc : List Sentence} {k : Nat} {s t : Sentence}
    (hs : s ∈ selectedSents doc k) (ht : t ∈ doc)
    (htn : t ∉ selectedSents doc k) :
    sent_score doc t ≤ sent_score doc s := by
  have hsort :
      (List.insertionSort (fun a b => sent_score doc b ≤ sent_score doc a)
        doc).Pairwise (fun a b => sent_score doc b ≤ sent_score doc a) := by
    haveI : IsTotal Sentence (fun a b => sent_score doc b ≤ sent_score doc a) :=
      ⟨fun a b => Nat.le_total (sent_score doc b) (sent_score doc a)⟩
    haveI : IsTrans Sentence (fun a b => sent_score doc b ≤ sent_score doc a) :=
      ⟨fun _ _ _ hab hbc => Nat.le_trans hbc hab⟩
    exact List.sorted_insertionSort _ doc
  have hsplit := List.take_append_drop k
    (List.insertionSort (fun a b => sent_score doc b ≤ sent_score doc a) doc)
  have ht2 : t ∈ List.insertionSort
      (fun a b => sent_score doc b ≤ sent_score doc a) doc :=
    (List.perm_insertionSort _ doc).mem_iff.2 ht
  rw [← hsplit] at ht2 hsort
  rcases List.mem_append.1 ht2 with hmem | hmem
  · exact absurd hmem htn
  · exact (List.pairwise_append.1 hsort).2.2 s hs t hmem

theorem filter_good_strip : ∀ ts : List Token,
    ts.filter (fun t => t.is_alpha && !t.is_stop && !t.like_num) =
      (ts.filter (fun t => !t.like_num)).filter
        (fun t => t.is_alpha && !t.is_stop && !t.like_num)
  | [] => rfl
  | t :: ts => by
    have ih := filter_good_strip ts
    by_cases hn : t.like_num = true
    · simp only [List.filter_cons, hn, Bool.not_true, Bool.and_false,
        Bool.false_eq_true, if_false]
      exact ih
    · have hn' : t.like_num = false := by
        cases hq : t.like_num
        · rfl
        · exact absurd hq hn
      simp only [List.filter_cons, hn', Bool.not_false, Bool.and_true, if_true]
      rw [ih]

theorem word_freq_stripNum (doc : List Sentence) (w : String) :
    word_freq doc w = word_freq (stripNumTokens doc) w := by
  have key : (doc.map Sentence.tokens).flatten.filter
        (fun t => t.is_alpha && !t.is_stop && !t.like_num) =
      ((stripNumTokens doc).map Sentence.tokens).flatten.filter
        (fun t => t.is_alpha && !t.is_stop && !t.like_num) := by
    induction doc with
    | nil => rfl
    | cons s rest ih =>
      simp only [stripNumTokens, List.map_cons, List.flatten_cons,
        List.filter_append] at ih ⊢
      rw [← ih, ← filter_good_strip s.tokens]
  rw [word_freq, word_freq, key]

theorem sent_score_all_num {doc : List Sentence} {s : Sentence}
    (h : s.tokens.all (fun t => t.like_num) = true) : sent_score doc s = 0 := by
  have hf : s.tokens.filter (fun t => !t.like_num) = [] := by
    rw [List.filter_eq_nil_iff]
    intro t ht
    simp [List.all_eq_true.1 h t ht]
  rw [sent_score, hf]
  rfl

theorem pyStripL_mem {c : Char} {l : List Char} (h : c ∈ pyStripL l) : c ∈ l := by
  rw [pyStripL] at h
  have h1 := List.mem_reverse.1 h
  have h2 := List.Sublist.mem h1 (List.dropWhile_sublist pyIsSpace)
  have h3 := List.mem_reverse.1 h2
  exact List.Sublist.mem h3 (List.dropWhile_sublist pyIsSpace)

theorem pyStripL_head {l : List Char} {c : Char}
    (h : (pyStripL l).head? = some c) : pyIsSpace c = false := by
  rw [pyStripL, List.head?_reverse] at h
  have hne : (l.dropWhile pyIsSpace).reverse.dropWhile pyIsSpace ≠ [] := by
    intro he
    rw [he] at h
    exact Option.noConfusion h
  rw [getLast?_dropWhile _ _ hne, List.getLast?_reverse] at h
  exact head?_dropWhile_not _ _ _ h

theorem pyStripL_last {l : List Char} {c : Char}
    (h : (pyStripL l).reverse.head? = some c) : pyIsSpace c = false := by
  rw [pyStripL, List.reverse_reverse] at h
  exact head?_dropWhile_not _ _ _ h

/-! ## Claim theorems -/

/-- C1 (corrected): for every segmented document and count `k`, the
summarizer selects exactly `min k n` sentences — at most `k`, and all of
them when the document has at most `k` sentences — but joins the selected
sentences in descending score order (the stable descending sort of the
sentence list truncated to `k`), not in their original document order. -/
theorem summarize_select_count_order (doc : List Sentence) (k : Nat) :
    (selectedSents doc k).length = min k doc.length
    ∧ (doc.length ≤ k → (selectedSents doc k).Perm doc)
    ∧ (selectedSents doc k).Pairwise
        (fun a b => sent_score doc b ≤ sent_score doc a)
    ∧ summarize_text doc k =
        joinSummary ((selectedSents doc k).map (fun s => pyStrip s.text)) :=
  ⟨selectedSents_length doc k, fun h => selectedSents_perm h,
    selectedSents_pairwise doc k, rfl⟩

/-- C1 witness: on the concrete two-sentence document, `k = 3` selects
all sentences. -/
theorem summarize_select_count_order_witness :
    (selectedSents exDoc 3).Perm exDoc :=
  (summarize_select_count_order exDoc 3).2.1 (by decide)

/-- C1 counterexample: both sentences of the concrete document are
selected, yet the summary joins them in score order ("a a" scores 4 and
comes first, "b" scores 1), not in the original document order. -/
theorem summarize_order_cex :
    summarize_text exDoc 2 = "a a. b."
    ∧ summarize_text exDoc 2 ≠
        joinSummary (exDoc.map (fun s => pyStrip s.text)) := by
  decide

/-- C2: for every document, both classifiers return no duplicate sentence
text, return exactly the texts of the matching sentences, order them by
strictly increasing index of first occurrence in the matched sequence,
and are deterministic (pure functions: both double-application conjuncts
hold definitionally). -/
theorem classify_nodup_first_order (doc : List Sentence) :
    (extract_key_clauses doc).Nodup
    ∧ (∀ x, x ∈ extract_key_clauses doc ↔ x ∈ matchedSents kcIndicators doc)
    ∧ (extract_key_clauses doc).Pairwise
        (fun a b => (matchedSents kcIndicators doc).indexOf a <
          (matchedSents kcIndicators doc).indexOf b)
    ∧ extract_key_clauses doc = extract_key_clauses doc
    ∧ (detect_hidden_risks doc).Nodup
    ∧ (∀ x, x ∈ detect_hidden_risks doc ↔ x ∈ matchedSents riskIndicators doc)
    ∧ (detect_hidden_risks doc).Pairwise
        (fun a b => (matchedSents riskIndicators doc).indexOf a <
          (matchedSents riskIndicators doc).indexOf b)
    ∧ detect_hidden_risks doc = detect_hidden_risks doc := by
  refine ⟨?_, ?_, ?_, rfl, ?_, ?_, ?_, rfl⟩
  · exact dedupFirstAux_nodup (matchedSents kcIndicators doc) []
  · intro x
    exact mem_dedupFirst
  · exact dedupFirstAux_pairwise (matchedSents kcIndicators doc) []
  · exact dedupFirstAux_nodup (matchedSents riskIndicators doc) []
  · intro x
    exact mem_dedupFirst
  · exact dedupFirstAux_pairwise (matchedSents riskIndicators doc) []

/-- C3 (corrected): numeric tokens are excluded from both the frequency
table and the scores — deleting every numeric token leaves `word_freq`
unchanged, and a sentence whose tokens are all numeric scores zero — and
selection never prefers such a sentence to any other: every unselected
sentence scores at most every selected one.  (A zero-scoring numeric
sentence can still be selected when `k` is at least the number of
sentences; see the counterexample.) -/
theorem numeric_tokens_inert (doc : List Sentence) (k : Nat) (w : String)
    (s t snum : Sentence) :
    word_freq doc w = word_freq (stripNumTokens doc) w
    ∧ (snum.tokens.all (fun tk => tk.like_num) = true →
        sent_score doc snum = 0)
    ∧ (s ∈ selectedSents doc k → t ∈ doc → t ∉ selectedSents doc k →
        sent_score doc t ≤ sent_score doc s) :=
  ⟨word_freq_stripNum doc w, fun h => sent_score_all_num h,
    fun hs ht htn => selectedSents_not_mem_le hs ht htn⟩

/-- C3 witness: on the concrete document, with `k = 1` the numeric-only
sentence is left out and scores no more than the selected sentence. -/
theorem numeric_tokens_inert_witness :
    word_freq exDocNum "a" = word_freq (stripNumTokens exDocNum) "a"
    ∧ sent_score exDocNum sentNum = 0
    ∧ sent_score exDocNum sentNum ≤ sent_score exDocNum sentA := by
  have h := numeric_tokens_inert exDocNum 1 "a" sentA sentNum sentNum
  exact ⟨h.1, h.2.1 (by decide), h.2.2 (by decide) (by decide) (by decide)⟩

/-- C3 counterexample: with `k = 2` the sentence consisting solely of the
numeric token "1200" is selected even though the non-numeric alternative
"a" exists in the document. -/
theorem numeric_sentence_selected_cex :
    sentNum.tokens.all (fun tk => tk.like_num) = true
    ∧ sentNum ∈ selectedSents exDocNum 2
    ∧ sentA ∈ exDocNum
    ∧ sentA.tokens.all (fun tk => tk.like_num) = false := by
  decide

/-- C4: the tracker returns exactly the formatted entries of the records
whose section and sub-section labels both occur case-insensitively as
substrings of the document text, in feed order; a record with a missing
section label is treated as carrying the empty-string label, and the
empty string is a substring of every text, so such a record qualifies on
that half rather than raising an error. -/
theorem track_updates_iff_order (text : String) (updates : List RegUpdate)
    (u : RegUpdate) (t : String) :
    track_regulatory_updates text updates =
      (updates.filter (qualifiesU text)).map
        (fun v => formatU (v.sectionLabel.getD "") (v.sub_section.getD "")
          (strLower (v.update.getD "")))
    ∧ (u.sectionLabel = none →
        qualifiesU text u =
          strContains (strLower text) (strLower (u.sub_section.getD "")))
    ∧ strContains t "" = true := by
  refine ⟨track_eq_filter_map text updates, ?_, strContains_empty_needle t⟩
  intro hnone
  have h0 : strLower "" = "" := rfl
  rw [qualifiesU, hnone]
  simp [h0, strContains_empty_needle]

/-- C4 witness: a record with a missing section label qualifies exactly
when its sub-section label occurs in the text. -/
theorem track_updates_iff_order_witness :
    qualifiesU "see section four" (⟨none, some "four", none⟩ : RegUpdate) =
      strContains (strLower "see section four")
        (strLower ((⟨none, some "four", none⟩ : RegUpdate).sub_section.getD "")) :=
  (track_updates_iff_order "see section four" [] ⟨none, some "four", none⟩
    "x").2.1 rfl

/-- C5: the QA call returns the empty string on a raised transport error
and on every non-200 status (the embedding is a total function: no
exception propagates), and on a 200 response with content it returns the
content stripped of surrounding whitespace. -/
theorem qa_failure_policy (status : Nat) (content : Option String)
    (ans : String) :
    get_answer_from_groq_api .exn = ""
    ∧ (status ≠ 200 → get_answer_from_groq_api (.ok status content) = "")
    ∧ get_answer_from_groq_api (.ok 200 (some ans)) = pyStrip ans := by
  refine ⟨rfl, ?_, rfl⟩
  intro h
  simp [get_answer_from_groq_api, h]

/-- C5 witness: a 503 response yields the empty answer. -/
theorem qa_failure_policy_witness :
    get_answer_from_groq_api (.ok 503 (some " ignored ")) = "" :=
  (qa_failure_policy 503 (some " ignored ") "x").2.1 (by decide)

/-- C6 (modelled from the spec, the store being absent from the source):
a second `upsert` with the same document identifier leaves the whole
store — hence the record stored for that identifier — unchanged, and
`retrieve` on the empty store returns the empty sequence. -/
theorem store_upsert_skip_retrieve_empty (encode : String → List Int)
    (sim : List Int → List Int → Int) (store : List EmbeddingRecord)
    (id t1 t2 q : String) (k : Nat) :
    upsert encode (upsert encode store id t1) id t2 =
      upsert encode store id t1
    ∧ retrieve encode sim [] q k = [] := by
  constructor
  · have key : (upsert encode store id t1).any
        (fun r => r.document_id == id) = true := by
      rw [upsert]
      by_cases h : store.any (fun r => r.document_id == id) = true
      · rw [if_pos h]
        exact h
      · rw [if_neg h, List.any_append]
        simp
    rw [upsert, if_pos key]
  · simp [retrieve]

/-- C7: the request body built for the completion endpoint carries the
question as the sole user message and nothing else — no retrieved
passages and no grounding context (the embedding model loaded at line 26
is never used).  This evaluates the code at the claim's failing input. -/
theorem groq_request_bare_question (q : String) :
    (groqRequest q).messages.map GroqMessage.content = [q]
    ∧ (groqRequest q).messages.length = 1 :=
  ⟨rfl, rfl⟩

/-- C8 (corrected): every sentence whose lowercased text contains one of
the eight phrases actually in the code's clause lexicon ("shall", "must",
"obliged to", "required to", "responsible for", "liable for", "warrant",
"guarantee") has its stripped text included in the classifier output.
The spec phrases "indemnify" and "breach of" are not in the code's
lexicon; see the counterexample. -/
theorem clause_indicator_included (doc : List Sentence) (s : Sentence)
    (hmem : s ∈ doc)
    (hmatch : kcIndicators.any (fun p => strContains (strLower s.text) p) = true) :
    pyStrip s.text ∈ extract_key_clauses doc := by
  rw [extract_key_clauses]
  apply mem_dedupFirst.2
  rw [matchedSents]
  exact List.mem_map_of_mem _ (List.mem_filter.2 ⟨hmem, hmatch⟩)

/-- C8 witness: a sentence containing "shall" is returned. -/
theorem clause_indicator_included_witness :
    pyStrip "The vendor shall deliver the goods." ∈
      extract_key_clauses [⟨"The vendor shall deliver the goods.", []⟩] :=
  clause_indicator_included [⟨"The vendor shall deliver the goods.", []⟩]
    ⟨"The vendor shall deliver the goods.", []⟩ (by decide) (by decide)

/-- C8 counterexample: a sentence containing the spec phrase "indemnify"
matches no phrase of the code's lexicon and is not returned. -/
theorem indemnify_not_matched_cex :
    extract_key_clauses [⟨"The supplier will indemnify the buyer.", []⟩] = []
    ∧ strContains (strLower "The supplier will indemnify the buyer.")
        "indemnify" = true := by
  decide

/-- C9 (corrected): on empty or whitespace-only input the cleaned text is
empty, so the segmenter — which maps the empty string to no sentences —
yields the empty document, and the summarizer returns the one-character
string "." (the join of zero sentences plus the appended final period),
not the empty string; no error is raised (the embedding is total). -/
theorem summarize_empty_input (segment : String → List Sentence) (s : String)
    (k : Nat) (hsp : ∀ c ∈ s.data, pyIsSpace c = true)
    (hseg : segment "" = []) :
    clean_text s = "" ∧ summarize_pipeline segment s k = "." := by
  have hclean := clean_text_spaces s hsp
  refine ⟨hclean, ?_⟩
  rw [summarize_pipeline, hclean, hseg, summarize_text, selectedSents]
  simp [joinSummary]
  rfl

/-- C9 witness: a one-space input yields the cleaned empty string and the
summary ".". -/
theorem summarize_empty_input_witness :
    clean_text " " = "" ∧ summarize_pipeline (fun _ => []) " " 5 = "." :=
  summarize_empty_input (fun _ => []) " " 5 (by decide) rfl

/-- C9 counterexample: at empty input the pipeline returns ".", which is
not the empty summary the claim promises. -/
theorem summarize_empty_dot_cex :
    summarize_pipeline (fun _ => []) "" 5 = "."
    ∧ summarize_pipeline (fun _ => []) "" 5 ≠ "" := by
  decide

/-- C10 (corrected): `clean_text` returns only ASCII letters and spaces —
every digit, dotted numeric reference and punctuation character,
including the sentence-terminating periods and question marks the
segmenter relies on, is removed before segmentation — with no leading or
trailing whitespace; but runs of more than one space can survive where
punctuation was deleted between two spaces, so the "single spaces" part
fails (see the counterexample). -/
theorem clean_text_chars (s : String) :
    (clean_text s).data.all (fun c => c.isAlpha || c == ' ') = true
    ∧ headNotSpace (clean_text s).data = true
    ∧ headNotSpace (clean_text s).data.reverse = true := by
  have hdata : (clean_text s).data =
      pyStripL ((collapseWs (removeDotted s.data)).filter keepChar) := rfl
  refine ⟨?_, ?_, ?_⟩
  · rw [hdata, List.all_eq_true]
    intro c hc
    have hc2 := pyStripL_mem hc
    have hc3 := List.mem_filter.1 hc2
    have hkeep := hc3.2
    rw [keepChar, Bool.or_eq_true] at hkeep
    rcases hkeep with ha | hsp
    · simp [ha]
    · have hc4 : c ∈ collapseWsAux false (removeDotted s.data) := hc3.1
      have := collapseWsAux_space_mem _ false c hc4 hsp
      simp [this]
  · rw [hdata]
    cases hh : (pyStripL ((collapseWs (removeDotted s.data)).filter
        keepChar)).head? with
    | none => simp [headNotSpace, hh]
    | some c => simp [headNotSpace, hh, pyStripL_head hh]
  · rw [hdata]
    cases hh : (pyStripL ((collapseWs (removeDotted s.data)).filter
        keepChar)).reverse.head? with
    | none => simp [headNotSpace, hh]
    | some c => simp [headNotSpace, hh, pyStripL_last hh]

/-- C10 counterexample: cleaning "a . b" yields "a  b", which contains a
double space — the output is not limited to single spaces. -/
theorem clean_text_double_space_cex :
    clean_text "a . b" = "a  b"
    ∧ strContains (clean_text "a . b") "  " = true := by
  decide

end LegalDocs
